import Mathlib

/-!
Verification of the ProblY random-variable graph engine.

The development shallowly embeds the two node models of the repository:

* `ProblY.Rvar` and `ProblY.Rvar.call` embed the `rvar` class of `src/probly.py`
  (global `networkx.DiGraph` store, identity-based seed derivation, edge
  `index` attributes, recursive evaluation in `rvar.__call__`);
* `ProblY.Node` and `ProblY.Node.call` embed the `Node` class of
  `src/probly/core.py` (parents stored on the node, length-1 sequence
  collapsing, falsy-operation identity root).

Python exceptions are modelled by `Option`/`Except`; machine seeds are
natural numbers reduced modulo the library maximum `2 ^ 32 - 1`.
-/

namespace ProblY

/-- Embeds `_max_seed = 2 ** 32 - 1` from `src/probly.py`. -/
def maxSeed : Nat := 2 ^ 32 - 1

/-- Embeds `get_seed` (`src/probly.py`, lines 60-77): a supplied seed is
returned unchanged; otherwise a freshly drawn entropy value (the `fresh`
parameter stands for the `urandom` draw) is used. -/
def get_seed (fresh : Nat) : Option Nat → Nat
  | some s => s
  | none => fresh

/-- Embeds the `rvar` objects of `src/probly.py` together with the part of the
global graph store that describes them.  A `leaf` is an `rvar` built from a
sampler only (`rvar.__init__` with `f = None` adds no graph node; the sampler
is `none` for a bare `rvar()`).  A `node` is an `rvar` built by
`rvar.compose(f, *args)`: the store records its method and one indexed edge
per argument.  `ident` stands for the CPython object identity `id(self)`.
Methods may fail (`Option`), modelling Python exceptions. -/
inductive Rvar (α : Type) where
  | leaf (ident : Nat) (sampler : Option (Nat → α))
  | node (ident : Nat) (method : List α → Option α) (args : List (Rvar α))

/-- Object identity of an `rvar`, as used by `id(self)` and by graph lookups. -/
def Rvar.ident {α : Type} : Rvar α → Nat
  | .leaf i _ => i
  | .node i _ _ => i

/-- Sequences a list of fallible computations left to right, stopping at the
first failure, exactly as a Python list comprehension propagates the first
exception. -/
def optionMap {β γ : Type} (g : β → Option γ) : List β → Option (List γ)
  | [] => some []
  | b :: l =>
    match g b, optionMap g l with
    | some c, some cs => some (c :: cs)
    | _, _ => none

theorem optionMap_congr {β γ : Type} {g h : β → Option γ} :
    ∀ {l : List β}, (∀ b ∈ l, g b = h b) → optionMap g l = optionMap h l
  | [], _ => rfl
  | b :: l, hbl => by
    have hb : g b = h b := hbl b (List.mem_cons_self b l)
    have hl : optionMap g l = optionMap h l :=
      optionMap_congr fun x hx => hbl x (List.mem_cons_of_mem _ hx)
    simp only [optionMap, hb, hl]

theorem optionMap_map {β β2 γ : Type} (g : β2 → Option γ) (f : β → β2) :
    ∀ l : List β, optionMap g (l.map f) = optionMap (fun b => g (f b)) l
  | [] => rfl
  | b :: l => by
    simp only [List.map_cons, optionMap, optionMap_map g f l]

theorem optionMap_attach {β γ : Type} (g : β → Option γ) (l : List β) :
    optionMap (fun c : {x // x ∈ l} => g c.1) l.attach = optionMap g l := by
  have h1 := optionMap_map g Subtype.val l.attach
  have h2 : l.attach.map Subtype.val = l := by
    have h3 := List.attach_map_val l id
    simp only [List.map_id] at h3
    exact h3
  rw [h2] at h1
  exact h1.symm

theorem mem_optionMap {β γ : Type} {g : β → Option γ} :
    ∀ {l : List β} {out : List γ}, optionMap g l = some out →
      ∀ {c : γ}, c ∈ out → ∃ b, b ∈ l ∧ g b = some c := by
  intro l
  induction l with
  | nil =>
    intro out h c hc
    simp only [optionMap, Option.some.injEq] at h
    subst h
    cases hc
  | cons b l ih =>
    intro out h c hc
    simp only [optionMap] at h
    cases hg : g b with
    | none => rw [hg] at h; cases h
    | some v =>
      rw [hg] at h
      cases hrec : optionMap g l with
      | none => rw [hrec] at h; cases h
      | some vs =>
        rw [hrec] at h
        injection h with h
        subst h
        rcases List.mem_cons.1 hc with rfl | hc2
        · exact ⟨b, List.mem_cons_self b l, hg⟩
        · obtain ⟨b2, hb2, hgb2⟩ := ih hrec hc2
          exact ⟨b2, List.mem_cons_of_mem _ hb2, hgb2⟩

/-- Embeds one step of `nx.DiGraph` edge bookkeeping: inserting an edge
`(a, child)` records the endpoint `a` as a predecessor once (dictionary key
insertion order), while a repeated endpoint only overwrites the edge data. -/
def insertParent {α : Type} (ps : List (Rvar α)) (a : Rvar α) : List (Rvar α) :=
  if ps.any (fun p => p.ident == a.ident) then ps else ps ++ [a]

/-- Embeds `rvar.parents` (`src/probly.py`, lines 126-131) for a composed
node: `list(rvar.graph.predecessors(self))`, the distinct argument nodes in
edge-insertion order. -/
def parentsOf {α : Type} (args : List (Rvar α)) : List (Rvar α) :=
  args.foldl insertParent []

/-- Embeds the stored edge attribute
`rvar.graph.get_edge_data(p, self)['index']`.  `add_edges_from` writes the
edge `(args[i], self, {'index': i})` for each `i`, so on a `DiGraph` a
repeated parent keeps only the last index written; absent parents default
to `0` (never hit by `Rvar.call`). -/
def edgeIndexAux {α : Type} (pid : Nat) : List (Rvar α) → Nat → Nat → Nat
  | [], _, acc => acc
  | a :: rest, i, acc => edgeIndexAux pid rest (i + 1) (if a.ident == pid then i else acc)

/-- Edge index of the parent with identity `pid` among the argument list. -/
def edgeIndex {α : Type} (args : List (Rvar α)) (pid : Nat) : Nat :=
  edgeIndexAux pid args 0 0

/-- Embeds `parents = [parents[i] for i in indices]` from `rvar.__call__`:
re-binds the queried predecessor list through the stored edge indices, with
`none` for an out-of-range index (Python `IndexError`). -/
def selectIdx {α : Type} (ps : List (Rvar α)) (idxs : List Nat) : Option (List (Rvar α)) :=
  optionMap (fun i => ps[i]?) idxs

theorem mem_insertParent {α : Type} {ps : List (Rvar α)} {a p : Rvar α}
    (h : p ∈ insertParent ps a) : p ∈ ps ∨ p = a := by
  unfold insertParent at h
  split at h
  · exact Or.inl h
  · rcases List.mem_append.1 h with h2 | h2
    · exact Or.inl h2
    · simp only [List.mem_singleton] at h2
      exact Or.inr h2

theorem mem_foldl_insertParent {α : Type} :
    ∀ (l acc : List (Rvar α)) {p : Rvar α}, p ∈ l.foldl insertParent acc → p ∈ acc ∨ p ∈ l
  | [], _, _, h => Or.inl h
  | a :: l, acc, p, h => by
    rcases mem_foldl_insertParent l (insertParent acc a) h with h1 | h1
    · rcases mem_insertParent h1 with h2 | h2
      · exact Or.inl h2
      · exact Or.inr (h2 ▸ List.mem_cons_self a l)
    · exact Or.inr (List.mem_cons_of_mem _ h1)

theorem mem_parentsOf {α : Type} {args : List (Rvar α)} {p : Rvar α}
    (h : p ∈ parentsOf args) : p ∈ args := by
  rcases mem_foldl_insertParent args [] h with h1 | h1
  · cases h1
  · exact h1

theorem mem_selectIdx {α : Type} {ps : List (Rvar α)} {idxs : List Nat}
    {chosen : List (Rvar α)} (h : selectIdx ps idxs = some chosen)
    {c : Rvar α} (hc : c ∈ chosen) : c ∈ ps := by
  obtain ⟨i, _, hgi⟩ := mem_optionMap h hc
  exact List.getElem?_mem hgi

/-- Embeds `rvar.__call__` (`src/probly.py`, lines 101-117).  The seed is
resolved through `get_seed`; a parentless `rvar` invokes its sampler at
`(seed + id(self)) % _max_seed` (a missing sampler is the Python
`TypeError` on calling `None`); a composed node re-binds the queried parents
through the stored edge indices, samples each re-bound parent with the same
resolved base seed, and applies its method to the samples. -/
def Rvar.call {α : Type} (fresh : Nat) : Rvar α → Option Nat → Option α
  | .leaf i sp, seedOpt =>
    match sp with
    | none => none
    | some f => some (f ((get_seed fresh seedOpt + i) % maxSeed))
  | .node _ method args, seedOpt =>
    if (parentsOf args).isEmpty then none
    else
      match hsel : selectIdx (parentsOf args)
          ((parentsOf args).map fun p => edgeIndex args p.ident) with
      | none => none
      | some chosen =>
        match optionMap
            (fun c => Rvar.call fresh c.1 (some (get_seed fresh seedOpt)))
            chosen.attach with
        | none => none
        | some samples => method samples
termination_by v _ => sizeOf v
decreasing_by
  have h1 : c.1 ∈ parentsOf args := mem_selectIdx hsel c.2
  have h2 : c.1 ∈ args := mem_parentsOf h1
  have h3 : sizeOf c.1 < sizeOf args := List.sizeOf_lt_of_mem h2
  simp only [Rvar.node.sizeOf_spec]
  omega

/-- One evaluation step of a composed node in `rvar.__call__`, abstracted
over the predecessor list `ps` returned by the graph query, so that the
re-binding of parents to argument positions can be stated for an arbitrary
query order.  Every re-bound parent is sampled with the same base seed `s`. -/
def nodeStep {α : Type} (fresh : Nat) (method : List α → Option α)
    (args ps : List (Rvar α)) (s : Nat) : Option α :=
  if ps.isEmpty then none
  else
    match selectIdx ps (ps.map fun p => edgeIndex args p.ident) with
    | none => none
    | some chosen =>
      match optionMap (fun c => Rvar.call fresh c (some s)) chosen with
      | none => none
      | some samples => method samples

theorem call_leaf {α : Type} (fresh i : Nat) (f : Nat → α) (s : Nat) :
    Rvar.call fresh (Rvar.leaf i (some f)) (some s) = some (f ((s + i) % maxSeed)) := by
  simp [Rvar.call, get_seed]

theorem call_node {α : Type} (fresh i : Nat) (m : List α → Option α)
    (args : List (Rvar α)) (seedOpt : Option Nat) :
    Rvar.call fresh (Rvar.node i m args) seedOpt
      = nodeStep fresh m args (parentsOf args) (get_seed fresh seedOpt) := by
  rw [Rvar.call]
  unfold nodeStep
  cases hemp : (parentsOf args).isEmpty with
  | true => simp only [hemp, if_true]
  | false =>
    simp only [hemp, Bool.false_eq_true, if_false]
    cases hs : selectIdx (parentsOf args)
        (List.map (fun p => edgeIndex args p.ident) (parentsOf args)) with
    | none => simp only [hs]
    | some chosen =>
      simp only [hs]
      rw [optionMap_attach (fun v => Rvar.call fresh v (some (get_seed fresh seedOpt))) chosen]

theorem parentsOf_single {α : Type} (x : Rvar α) : parentsOf [x] = [x] := by
  simp [parentsOf, insertParent]

theorem parentsOf_pair {α : Type} {x y : Rvar α} (hne : x.ident ≠ y.ident) :
    parentsOf [x, y] = [x, y] := by
  simp [parentsOf, insertParent, hne]

theorem edgeIndex_self_single {α : Type} (x : Rvar α) : edgeIndex [x] x.ident = 0 := by
  simp [edgeIndex, edgeIndexAux]

theorem edgeIndex_pair_left {α : Type} {x y : Rvar α} (hne : y.ident ≠ x.ident) :
    edgeIndex [x, y] x.ident = 0 := by
  simp [edgeIndex, edgeIndexAux, hne]

theorem edgeIndex_pair_right {α : Type} (x y : Rvar α) :
    edgeIndex [x, y] y.ident = 1 := by
  simp [edgeIndex, edgeIndexAux]

theorem call_unary {α : Type} (fresh i s : Nat) (m : List α → Option α) (x : Rvar α) :
    Rvar.call fresh (Rvar.node i m [x]) (some s)
      = match Rvar.call fresh x (some s) with
        | some v => m [v]
        | none => none := by
  rw [call_node, parentsOf_single]
  simp only [get_seed]
  unfold nodeStep selectIdx
  simp only [List.map_cons, List.map_nil, edgeIndex_self_single, List.isEmpty_cons,
    Bool.false_eq_true, if_false, optionMap, List.getElem?_cons_zero]
  cases h : Rvar.call fresh x (some s) <;> simp

theorem call_binary {α : Type} (fresh i s : Nat) (m : List α → Option α) (x y : Rvar α)
    (hne : x.ident ≠ y.ident) :
    Rvar.call fresh (Rvar.node i m [x, y]) (some s)
      = match Rvar.call fresh x (some s), Rvar.call fresh y (some s) with
        | some a, some b => m [a, b]
        | _, _ => none := by
  rw [call_node, parentsOf_pair hne]
  simp only [get_seed]
  unfold nodeStep selectIdx
  simp only [List.map_cons, List.map_nil, edgeIndex_pair_left (Ne.symm hne),
    edgeIndex_pair_right x y, List.isEmpty_cons, Bool.false_eq_true, if_false, optionMap,
    List.getElem?_cons_zero, List.getElem?_cons_succ]
  cases hx : Rvar.call fresh x (some s) <;> cases hy : Rvar.call fresh y (some s) <;> simp

theorem nodeStep_pair_swapped {α : Type} (fresh s : Nat) (m : List α → Option α)
    (x y : Rvar α) (hne : x.ident ≠ y.ident) :
    nodeStep fresh m [x, y] [y, x] s
      = match Rvar.call fresh x (some s), Rvar.call fresh y (some s) with
        | some a, some b => m [a, b]
        | _, _ => none := by
  unfold nodeStep selectIdx
  simp only [List.map_cons, List.map_nil, edgeIndex_pair_left (Ne.symm hne),
    edgeIndex_pair_right x y, List.isEmpty_cons, Bool.false_eq_true, if_false, optionMap,
    List.getElem?_cons_zero, List.getElem?_cons_succ]
  cases hx : Rvar.call fresh x (some s) <;> cases hy : Rvar.call fresh y (some s) <;> simp

theorem call_fresh_eq {α : Type} (f1 f2 : Nat) :
    ∀ (v : Rvar α) (s : Nat), Rvar.call f1 v (some s) = Rvar.call f2 v (some s)
  | .leaf i sp, s => by cases sp <;> simp [Rvar.call, get_seed]
  | .node i m args, s => by
    rw [call_node, call_node]
    simp only [get_seed]
    unfold nodeStep
    cases hemp : (parentsOf args).isEmpty with
    | true => simp only [hemp, if_true]
    | false =>
      simp only [hemp, Bool.false_eq_true, if_false]
      cases hs : selectIdx (parentsOf args)
          (List.map (fun p => edgeIndex args p.ident) (parentsOf args)) with
      | none => simp only [hs]
      | some chosen =>
        simp only [hs]
        have hmap : optionMap (fun c => Rvar.call f1 c (some s)) chosen
            = optionMap (fun c => Rvar.call f2 c (some s)) chosen := by
          apply optionMap_congr
          intro b hb
          exact call_fresh_eq f1 f2 b s
        rw [hmap]
termination_by v _ => sizeOf v
decreasing_by
  have h1 : b ∈ parentsOf args := mem_selectIdx hs hb
  have h2 : b ∈ args := mem_parentsOf h1
  have h3 : sizeOf b < sizeOf args := List.sizeOf_lt_of_mem h2
  simp only [Rvar.node.sizeOf_spec]
  omega

/-- C1: evaluating a leaf (zero-parent) rvar with identity `i` and a
caller-supplied base seed `s` invokes its sampler exactly once, at the
node-local seed `(s + i) % (2 ^ 32 - 1)`, and that derived seed always lies
within the admissible range `[0, 2 ^ 32 - 2]`. -/
theorem claim_C1 {α : Type} (fresh i s : Nat) (f : Nat → α) :
    Rvar.call fresh (Rvar.leaf i (some f)) (some s) = some (f ((s + i) % maxSeed))
    ∧ (s + i) % maxSeed ≤ 2 ^ 32 - 2 := by
  refine ⟨call_leaf fresh i f s, ?_⟩
  have hpos : 0 < maxSeed := by decide
  have h := Nat.mod_lt (s + i) hpos
  have hm : maxSeed = 4294967295 := by norm_num [maxSeed]
  have hg : (2 : Nat) ^ 32 - 2 = 4294967294 := by norm_num
  rw [hg]
  omega

/-- C3: a supplied seed is returned unchanged by seed resolution; evaluation
with a supplied base seed never consults the entropy source (the result does
not depend on `fresh`); an absent seed is resolved once at the top level
(evaluating with no seed equals evaluating with the generated seed supplied);
and a composed node evaluates through `nodeStep`, whose recursive parent
evaluations all receive the very same unmodified base seed `s`. -/
theorem claim_C3 {α : Type} (fresh fresh2 i : Nat) (v : Rvar α) (s : Nat)
    (m : List α → Option α) (args : List (Rvar α)) :
    get_seed fresh (some s) = s
    ∧ Rvar.call fresh v (some s) = Rvar.call fresh2 v (some s)
    ∧ Rvar.call fresh v none = Rvar.call fresh v (some fresh)
    ∧ Rvar.call fresh (Rvar.node i m args) (some s)
        = nodeStep fresh m args (parentsOf args) s := by
  refine ⟨rfl, call_fresh_eq fresh fresh2 v s, ?_, ?_⟩
  · cases v with
    | leaf i2 sp => cases sp <;> simp [Rvar.call, get_seed]
    | node i2 m2 args2 =>
      rw [call_node, call_node]
      rfl
  · rw [call_node]
    rfl

/-- Binary combining method whose result exposes the order of its two
arguments. -/
def pairOp : List Nat → Option Nat
  | [a, b] => some (100 * a + b)
  | _ => none

/-- Unary method used in diamond examples. -/
def addTenOp : List Nat → Option Nat
  | [a] => some (a + 10)
  | _ => none

/-- Leaf rvar sampling its derived seed. -/
def idLeaf : Rvar Nat := Rvar.leaf 1 (some fun n => n)

/-- C2 is false as stated: with the same node supplied as both operands of a
binary compose, the two indexed edges collapse to one in the DiGraph store
(`add_edges_from` overwrites the edge data), and evaluation raises an
IndexError (modelled `none`) instead of returning `f` applied to the two
operand values (which would be `some 101` here). -/
theorem claim_C2_counterexample :
    Rvar.call 0 (Rvar.node 3 pairOp [idLeaf, idLeaf]) (some 0) = none
    ∧ pairOp [(0 + 1) % maxSeed, (0 + 1) % maxSeed] = some 101 := by
  constructor
  · rw [call_node]
    simp [nodeStep, parentsOf, insertParent, idLeaf, Rvar.ident, edgeIndex,
      edgeIndexAux, selectIdx, optionMap, get_seed]
  · decide

/-- C2 (amended): for a binary function and two operand nodes with distinct
identities, the node built by `compose(f, x, y)` evaluates at every seed to
`f` of the value of `x` and the value of `y` at that seed, in that argument
order; moreover the evaluation step yields that same result whichever order
the predecessor query returns the two parents in, because the parents are
re-bound to argument positions through the stored edge indices. -/
theorem claim_C2_amended {α : Type} (fresh zid s : Nat) (m : List α → Option α)
    (x y : Rvar α) (hne : x.ident ≠ y.ident) (vx vy : α)
    (hx : Rvar.call fresh x (some s) = some vx)
    (hy : Rvar.call fresh y (some s) = some vy) :
    Rvar.call fresh (Rvar.node zid m [x, y]) (some s) = m [vx, vy]
    ∧ ∀ ps, (ps = [x, y] ∨ ps = [y, x]) →
        nodeStep fresh m [x, y] ps s = m [vx, vy] := by
  have hcall : Rvar.call fresh (Rvar.node zid m [x, y]) (some s) = m [vx, vy] := by
    rw [call_binary fresh zid s m x y hne, hx, hy]
  refine ⟨hcall, ?_⟩
  rintro ps (rfl | rfl)
  · have h2 := call_node fresh zid m [x, y] (some s)
    rw [parentsOf_pair hne] at h2
    simp only [get_seed] at h2
    rw [← h2]
    exact hcall
  · rw [nodeStep_pair_swapped fresh s m x y hne, hx, hy]

/-- Witness for the amended C2 at concrete inputs: two distinct leaves, the
order-sensitive method `pairOp`, seed `3`, and both possible predecessor
query orders. -/
theorem claim_C2_witness :
    Rvar.call 0 (Rvar.node 9 pairOp
        [Rvar.leaf 1 (some fun n => n), Rvar.leaf 2 (some fun n => n + 10)]) (some 3)
      = pairOp [(3 + 1) % maxSeed, (3 + 2) % maxSeed + 10]
    ∧ ∀ ps, (ps = [Rvar.leaf 1 (some fun n => n), Rvar.leaf 2 (some fun n => n + 10)]
          ∨ ps = [Rvar.leaf 2 (some fun n => n + 10), Rvar.leaf 1 (some fun n => n)]) →
        nodeStep 0 pairOp [Rvar.leaf 1 (some fun n => n), Rvar.leaf 2 (some fun n => n + 10)] ps 3
          = pairOp [(3 + 1) % maxSeed, (3 + 2) % maxSeed + 10] :=
  claim_C2_amended 0 9 3 pairOp (Rvar.leaf 1 (some fun n => n))
    (Rvar.leaf 2 (some fun n => n + 10)) (by decide)
    ((3 + 1) % maxSeed) ((3 + 2) % maxSeed + 10)
    (call_leaf 0 1 (fun n => n) 3) (call_leaf 0 2 (fun n => n + 10) 3)

/-- C5: diamond consistency.  With a leaf `X`, `Y = compose(g, X)` and
`Z = compose(h, X, Y)`, evaluating `Z` at seed `s` yields
`h (X value) (g (X value))`: the value of the shared ancestor `X` seen
through `Y` is the same value `X` yields when evaluated directly at `s`. -/
theorem claim_C5 {α : Type} (fresh ix iy iz s : Nat) (hne : ix ≠ iy)
    (sx : Nat → α) (g h : List α → Option α) :
    Rvar.call fresh
        (Rvar.node iz h
          [Rvar.leaf ix (some sx), Rvar.node iy g [Rvar.leaf ix (some sx)]])
        (some s)
      = (g [sx ((s + ix) % maxSeed)]).bind (fun w => h [sx ((s + ix) % maxSeed), w])
    ∧ Rvar.call fresh (Rvar.leaf ix (some sx)) (some s)
        = some (sx ((s + ix) % maxSeed)) := by
  have hx := call_leaf fresh ix sx s
  have hy : Rvar.call fresh (Rvar.node iy g [Rvar.leaf ix (some sx)]) (some s)
      = g [sx ((s + ix) % maxSeed)] := by
    rw [call_unary fresh iy s g (Rvar.leaf ix (some sx)), hx]
  refine ⟨?_, hx⟩
  have hb := call_binary fresh iz s h (Rvar.leaf ix (some sx))
      (Rvar.node iy g [Rvar.leaf ix (some sx)])
      (show ix ≠ iy from hne)
  rw [hb, hx, hy]
  cases g [sx ((s + ix) % maxSeed)] <;> simp

/-- Witness for C5 at concrete inputs: identity leaf, unary `addTenOp`,
binary `pairOp`, seed `0`. -/
theorem claim_C5_witness :
    Rvar.call 0 (Rvar.node 3 pairOp
        [Rvar.leaf 1 (some fun n => n), Rvar.node 2 addTenOp [Rvar.leaf 1 (some fun n => n)]])
        (some 0)
      = (addTenOp [(0 + 1) % maxSeed]).bind (fun w => pairOp [(0 + 1) % maxSeed, w])
    ∧ Rvar.call 0 (Rvar.leaf 1 (some fun n => n)) (some 0) = some ((0 + 1) % maxSeed) :=
  claim_C5 0 1 2 3 0 (by decide) (fun n => n) addTenOp pairOp

/-- Classifies the object a caller supplies as the sampler of a leaf rvar:
either a Python callable (a seed-to-value function) or any non-callable
object. -/
inductive SamplerArg (α : Type) where
  | callableFn (f : Nat → α)
  | notCallableObj

/-- Construction-time failure, the code-level form of the spec's
`InvalidSamplerError` (the `assert callable(sampler)` in `rvar.__init__`). -/
inductive ConstructError where
  | invalidSampler

/-- Embeds `rvar.__init__` (`src/probly.py`, lines 90-93) for leaf
construction (`f = None`): the sampler is stored, and a non-`None`
non-callable sampler fails the `assert callable(sampler)` check immediately
at construction, before any evaluation can happen. -/
def rvarInit {α : Type} (ident : Nat) (sampler : Option (SamplerArg α)) :
    Except ConstructError (Rvar α) :=
  match sampler with
  | none => .ok (Rvar.leaf ident none)
  | some (.callableFn f) => .ok (Rvar.leaf ident (some f))
  | some .notCallableObj => .error .invalidSampler

/-- C6: constructing a random variable from a non-callable sampler fails at
construction time with the invalid-sampler error, while a callable sampler
constructs the leaf outright - so the failure is decided at construction and
never deferred to evaluation. -/
theorem claim_C6 (α : Type) (i : Nat) :
    rvarInit i (some (SamplerArg.notCallableObj : SamplerArg α))
        = .error .invalidSampler
    ∧ ∀ f : Nat → α, rvarInit i (some (SamplerArg.callableFn f))
        = .ok (Rvar.leaf i (some f)) :=
  ⟨rfl, fun _ => rfl⟩

/-- Tells whether constructing this rvar put a node into the global graph
store: `rvar.__init__` calls `rvar.graph.add_node` only when a composition
method `f` is given, so an rvar built from a sampler alone is absent from the
store (it enters the graph only as an edge endpoint if a later composition
references it, and even then it has no predecessors); `rvar.parents` answers
the empty list for it either way. -/
def inGraphStore {α : Type} : Rvar α → Bool
  | .leaf _ _ => false
  | .node _ _ _ => true

/-- C8 is false as stated: a leaf rvar is absent from the graph store, yet
evaluating it does not fail with `NotFoundError` - it returns its sampler's
value at the derived seed. -/
theorem claim_C8_counterexample :
    inGraphStore (Rvar.leaf 7 (some fun n : Nat => n)) = false
    ∧ Rvar.call 0 (Rvar.leaf 7 (some fun n : Nat => n)) (some 3) = some 10 := by
  refine ⟨rfl, ?_⟩
  rw [call_leaf]
  have h : (3 + 7) % maxSeed = 10 := by decide
  rw [h]

/-- C8 (amended): a node absent from the graph store has no parent record, so
`rvar.__call__` takes the parentless branch: with a callable sampler it
returns the sampler's value at the derived seed (no error at all), and only a
bare rvar with no sampler fails - with a `TypeError` on calling `None`
(modelled `none`), never with a `NotFoundError`. -/
theorem claim_C8_amended {α : Type} (fresh i s : Nat) (f : Nat → α) :
    inGraphStore (Rvar.leaf i (some f)) = false
    ∧ Rvar.call fresh (Rvar.leaf i (some f)) (some s) = some (f ((s + i) % maxSeed))
    ∧ inGraphStore (Rvar.leaf i (none : Option (Nat → α))) = false
    ∧ Rvar.call fresh (Rvar.leaf i (none : Option (Nat → α))) (some s) = none :=
  ⟨rfl, call_leaf fresh i f s, rfl, by simp [Rvar.call]⟩

/-- A small universe of Python values as the evaluator sees them: `pynone`
for `None`, `atom` for a bare number (no `__len__`, no `__getitem__`), and
`seq` for a sequence (tuple or list). -/
inductive PyObj where
  | pynone
  | atom (n : Int)
  | seq (xs : List PyObj)

/-- Python truthiness of a value (`bool(v)`): `None`, `0` and an empty
sequence are falsy. -/
def PyObj.truthy : PyObj → Bool
  | .pynone => false
  | .atom n => decide (n ≠ 0)
  | .seq xs => !xs.isEmpty

/-- Whether a value supports indexing (`hasattr(v, '__getitem__')`): only
sequences do in this universe. -/
def subscriptable : PyObj → Bool
  | .seq _ => true
  | _ => false

/-- Indexing a value (`v[k]`): `none` models the Python `TypeError` on a
non-subscriptable value and the `IndexError` past the end of a sequence. -/
def PyObj.getindex : PyObj → Nat → Option PyObj
  | .seq xs, k => xs[k]?
  | _, _ => none

/-- Embeds the closure `get` built by `rvar.getitem` (`src/probly.py`,
lines 174-178): `lambda arr: arr[key]`, as a one-argument node method. -/
def getOp (k : Nat) : List PyObj → Option PyObj
  | [arr] => arr.getindex k
  | _ => none

/-- Embeds `rvar.__getitem__`/`rvar.getitem` (`src/probly.py`, lines
119-120 and 174-178): indexing always composes a new derived node over the
indexed rvar, with no check of any kind. -/
def rvarGetitem (newId : Nat) (obj : Rvar PyObj) (k : Nat) : Rvar PyObj :=
  Rvar.node newId (getOp k) [obj]

/-- Indexing failure named by the spec. -/
inductive IndexingError where
  | notSubscriptable

/-- Follows the spec's words, for comparison with `rvarGetitem` (the code):
indexing is only valid if a zero-seed sample of the variable supports
indexing, and otherwise fails with `NotSubscriptableError` at indexing time. -/
def getitemSpec (newId : Nat) (obj : Rvar PyObj) (k : Nat) :
    Except IndexingError (Rvar PyObj) :=
  match Rvar.call 0 obj (some 0) with
  | some v =>
    if subscriptable v then .ok (rvarGetitem newId obj k)
    else .error .notSubscriptable
  | none => .error .notSubscriptable

/-- C7 is false as stated: for a leaf whose zero-seed sample is the bare
number `1`, the spec-mandated indexing operation fails with
`NotSubscriptableError`, but the code's `__getitem__` raises nothing - it
returns the composed getter node. -/
theorem claim_C7_counterexample :
    getitemSpec 2 (Rvar.leaf 1 (some fun n => PyObj.atom (Int.ofNat n))) 0
        = .error .notSubscriptable
    ∧ rvarGetitem 2 (Rvar.leaf 1 (some fun n => PyObj.atom (Int.ofNat n))) 0
        = Rvar.node 2 (getOp 0) [Rvar.leaf 1 (some fun n => PyObj.atom (Int.ofNat n))] := by
  refine ⟨?_, rfl⟩
  unfold getitemSpec
  rw [call_leaf]
  simp [subscriptable]

/-- C7 (amended): `__getitem__` performs no construction-time check - it
always returns the composed getter node, for any rvar and key; for a
variable whose samples are bare numbers, the failure surfaces only when the
composed node is evaluated (a `TypeError`, modelled `none`), not at indexing
time. -/
theorem claim_C7_amended (newId k fresh s i : Nat) (f : Nat → Int) :
    rvarGetitem newId (Rvar.leaf i (some fun n => PyObj.atom (f n))) k
        = Rvar.node newId (getOp k) [Rvar.leaf i (some fun n => PyObj.atom (f n))]
    ∧ (∀ obj, rvarGetitem newId obj k = Rvar.node newId (getOp k) [obj])
    ∧ Rvar.call fresh
        (rvarGetitem newId (Rvar.leaf i (some fun n => PyObj.atom (f n))) k)
        (some s) = none := by
  refine ⟨rfl, fun _ => rfl, ?_⟩
  unfold rvarGetitem
  rw [call_unary, call_leaf]
  simp [getOp, PyObj.getindex]

/-- Classifies an argument passed to a lifted function
(`src/probly/lib/utils.py`, lines 60-66): either an instance of the
random-variable class or any other Python value, treated as a constant. -/
inductive LiftArg (α : Type) where
  | rv (v : Rvar α)
  | const (c : α)

/-- Embeds the dispatch test `isinstance(arg, RandomVariable)`. -/
def LiftArg.isRV {α : Type} : LiftArg α → Bool
  | .rv _ => true
  | .const _ => false

/-- Constant payload of a non-node argument. -/
def LiftArg.asConst {α : Type} : LiftArg α → Option α
  | .const c => some c
  | .rv _ => none

/-- Modelled from the spec: the `RandomVariable` class that `lift`
instantiates (module `core/random_variables`, imported by
`src/probly/lib/utils.py`) is not among the sources.  Per the spec, its
constructor `RandomVariable(f, *args)` builds a derived node whose operation
is `f` and whose ordered parents are the operands in argument order, casting
each non-node operand to a constant leaf whose sampler ignores its seed.
`baseId` supplies fresh node identities. -/
def composeModel {α : Type} (baseId : Nat) (f : List α → Option α)
    (args : List (LiftArg α)) : Rvar α :=
  Rvar.node baseId f (args.enum.map fun x =>
    match x.2 with
    | .rv w => w
    | .const c => Rvar.leaf (baseId + 1 + x.1) (some fun _ => c))

/-- Result of calling a lifted function: either an eagerly computed plain
value or a newly composed node. -/
inductive LiftResult (α : Type) where
  | value (v : Option α)
  | node (n : Rvar α)

/-- Embeds `lift` (`src/probly/lib/utils.py`, lines 43-67): calling the
lifted `f` composes a derived node when at least one argument is an instance
of the random-variable class, registering it in the store, and otherwise
computes `f` on the arguments eagerly, leaving the store untouched.  In the
eager branch every argument is a constant, so `filterMap asConst` is exactly
the argument list. -/
def liftCall {α : Type} (f : List α → Option α) (baseId : Nat)
    (store : List (Rvar α)) (args : List (LiftArg α)) :
    LiftResult α × List (Rvar α) :=
  if args.any LiftArg.isRV then
    (LiftResult.node (composeModel baseId f args),
      store ++ [composeModel baseId f args])
  else
    (LiftResult.value (f (args.filterMap LiftArg.asConst)), store)

theorem anyIsRV_map_const {α : Type} (cs : List α) :
    (cs.map LiftArg.const).any LiftArg.isRV = false := by
  induction cs with
  | nil => rfl
  | cons c cs ih => simp [List.any_cons, LiftArg.isRV, ih]

theorem filterMap_asConst_map_const {α : Type} (cs : List α) :
    (cs.map LiftArg.const).filterMap LiftArg.asConst = cs := by
  induction cs with
  | nil => rfl
  | cons c cs ih => simp [List.filterMap_cons, LiftArg.asConst, ih]

/-- C4: calling a lifted function on constants only computes `f` eagerly and
adds nothing to the graph store, while a call with at least one
random-variable argument (anywhere in the argument list) returns the
composed derived node and registers it. -/
theorem claim_C4 {α : Type} (f : List α → Option α) (b : Nat)
    (store : List (Rvar α)) (cs : List α) (pre post : List (LiftArg α))
    (v : Rvar α) :
    liftCall f b store (cs.map LiftArg.const) = (LiftResult.value (f cs), store)
    ∧ liftCall f b store (pre ++ LiftArg.rv v :: post)
        = (LiftResult.node (composeModel b f (pre ++ LiftArg.rv v :: post)),
           store ++ [composeModel b f (pre ++ LiftArg.rv v :: post)]) := by
  constructor
  · simp only [liftCall, anyIsRV_map_const, Bool.false_eq_true, if_false,
      filterMap_asConst_map_const]
  · have hany : (pre ++ LiftArg.rv v :: post).any LiftArg.isRV = true := by
      simp [List.any_append, List.any_cons, LiftArg.isRV]
    simp [liftCall, hany]

/-- Embeds the `Node` class of `src/probly/core.py`: an operation over the
(already collapsed) outputs of the stored parents. -/
inductive Node where
  | mk (op : List PyObj → PyObj) (parents : List Node)

/-- Embeds the length-1 unwrapping at the end of `Node.__call__`
(`src/probly/core.py`, lines 62-64): `if hasattr(out, '__len__') and
len(out) == 1: out = out[0]`.  In this value universe only sequences carry a
length, and indexing a one-element sequence at `0` yields its element; every
other value is returned unchanged. -/
def collapse : PyObj → PyObj
  | .seq [v] => v
  | v => v

/-- Embeds `Node.__call__` (`src/probly/core.py`, lines 50-66): a parentless
root applies its operation directly to the given arguments, a derived node
applies it to the recursively computed parent outputs, and the result is
passed through the length-1 collapsing. -/
def Node.call : Node → List PyObj → PyObj
  | .mk op parents, args =>
    let out :=
      if parents.isEmpty then op args
      else op (parents.attach.map fun p => Node.call p.1 args)
    collapse out
termination_by n _ => sizeOf n
decreasing_by
  have h1 : sizeOf p.1 < sizeOf parents := List.sizeOf_lt_of_mem p.2
  simp only [Node.mk.sizeOf_spec]
  omega

/-- The raw operation result of `Node.__call__`, before the final length-1
collapsing (the value of `out` just after the if/else). -/
def Node.rawOut : Node → List PyObj → PyObj
  | .mk op parents, args =>
    if parents.isEmpty then op args
    else op (parents.attach.map fun p => Node.call p.1 args)

theorem node_call_eq_collapse_rawOut (n : Node) (args : List PyObj) :
    Node.call n args = collapse (Node.rawOut n args) := by
  cases n with
  | mk op parents => rw [Node.call, Node.rawOut]

/-- C9: the evaluator returns exactly the collapse of the operation's raw
result, and the collapsing unwraps precisely the length-1 sequences: a
one-element sequence becomes its element, while `None`, bare numbers, the
empty sequence and sequences of two or more elements pass through
unchanged. -/
theorem claim_C9 (n : Node) (args : List PyObj) :
    Node.call n args = collapse (Node.rawOut n args)
    ∧ (∀ v, collapse (PyObj.seq [v]) = v)
    ∧ (∀ k, collapse (PyObj.atom k) = PyObj.atom k)
    ∧ collapse PyObj.pynone = PyObj.pynone
    ∧ collapse (PyObj.seq []) = PyObj.seq []
    ∧ ∀ a b rest, collapse (PyObj.seq (a :: b :: rest)) = PyObj.seq (a :: b :: rest) :=
  ⟨node_call_eq_collapse_rawOut n args, fun _ => rfl, fun _ => rfl, rfl, rfl,
    fun _ _ _ => rfl⟩

/-- Classifies the `op` argument of `Node.__init__`: a Python callable or
any other object (callables are always truthy in Python). -/
inductive OpArg where
  | obj (v : PyObj)
  | func (f : List PyObj → PyObj)

/-- Construction-time failure of `Node.__init__`: the `assert not parents`
in the falsy-operation branch. -/
inductive InitError where
  | assertFailed

/-- The identity root operation `lambda *x: x` installed by `Node.__init__`
for a falsy `op`; it returns the argument tuple. -/
def pyIdentity : List PyObj → PyObj := fun xs => PyObj.seq xs

/-- Embeds `Node.__init__` (`src/probly/core.py`, lines 26-48): a falsy `op`
(`if not op`) makes a parentless identity root (asserting there are no
parents), a truthy non-callable `op` is wrapped as the constant map
returning itself, and a callable `op` is stored as the operation. -/
def nodeInit : OpArg → List Node → Except InitError Node
  | .obj v, parents =>
    if v.truthy = false then
      if parents.isEmpty then .ok (Node.mk pyIdentity [])
      else .error .assertFailed
    else
      .ok (Node.mk (fun _ => v) parents)
  | .func f, parents => .ok (Node.mk f parents)

/-- C10: constructing a `Node` from a falsy operation value and no parents
yields the identity root, and calling that node on a single argument returns
the argument itself - the falsy constant is not wrapped as a constant map,
so in particular passing `0` as the operation cannot create a constant node
for `0`. -/
theorem claim_C10 (v : PyObj) (hfalsy : v.truthy = false) (x : PyObj) :
    nodeInit (OpArg.obj v) [] = .ok (Node.mk pyIdentity [])
    ∧ Node.call (Node.mk pyIdentity []) [x] = x := by
  constructor
  · simp [nodeInit, hfalsy]
  · rw [Node.call]
    simp [pyIdentity, collapse]

/-- Witness for C10: the falsy operation value `0` with the single argument
`5` - the constructed node returns `5`, not `0`. -/
theorem claim_C10_witness :
    nodeInit (OpArg.obj (PyObj.atom 0)) [] = .ok (Node.mk pyIdentity [])
    ∧ Node.call (Node.mk pyIdentity []) [PyObj.atom 5] = PyObj.atom 5 :=
  claim_C10 (PyObj.atom 0) (by decide) (PyObj.atom 5)

end ProblY
